import Mathlib

/-!
Shallow embedding of `generar_figuras.py` and
`scripts/regenerar_figuras_eurosat.py`.

Images are modelled as a pair of dimensions together with a total pixel
function `ℤ → ℤ → ℚ`: the boundary padding of the underlying library is abstracted
by making pixel functions total, and floating-point arithmetic is replaced by
exact rationals.  Library kernels whose weights are irrational (Gaussian
smoothing, Sobel gradient magnitude, Canny) are abstracted as pixel-level
parameters collected in a `Lib` record — the scripts only compose them, never
look inside — while every other library operation the scripts use
(`rescale_intensity`, `resize`, `median`, `laplace`, flat grayscale morphology
with a disk structuring element, `np.clip`) is modelled concretely.  The
download / extraction / fallback control flow of `generar_figuras.py` is
modelled with explicit environments for the network, the archives and the
optional `tensorflow_datasets` dependency.
-/

/-- Grayscale byte raster, the result of PIL `Image.open(path).convert("L")`. -/
@[ext]
structure ByteImg where
  h : ℕ
  w : ℕ
  px : ℤ → ℤ → ℕ

/-- Two-dimensional floating-point grayscale array (numpy `float` image). -/
@[ext]
structure Img where
  h : ℕ
  w : ℕ
  px : ℤ → ℤ → ℚ

/-- Two-dimensional boolean array, as returned by `skimage.feature.canny`. -/
@[ext]
structure BImg where
  h : ℕ
  w : ℕ
  px : ℤ → ℤ → Bool

/-- In-range coordinate grid of an `h × w` array. -/
def pixFinset (h w : ℕ) : Finset (ℕ × ℕ) :=
  Finset.range h ×ˢ Finset.range w

theorem pixFinset_nonempty {h w : ℕ} (hh : 0 < h) (hw : 0 < w) :
    (pixFinset h w).Nonempty :=
  ⟨(0, 0), Finset.mem_product.mpr
    ⟨Finset.mem_range.mpr hh, Finset.mem_range.mpr hw⟩⟩

/-- Value of an image at an in-range coordinate pair. -/
def pixVal (x : Img) (p : ℕ × ℕ) : ℚ := x.px p.1 p.2

/-- Smallest pixel value of the array (`np.min`); junk value 0 on an empty
array, where numpy raises instead. -/
def minPix (x : Img) : ℚ :=
  if h : 0 < x.h ∧ 0 < x.w then
    (pixFinset x.h x.w).inf' (pixFinset_nonempty h.1 h.2) (pixVal x)
  else 0

/-- Largest pixel value of the array (`np.max`); junk value 0 on an empty
array. -/
def maxPix (x : Img) : ℚ :=
  if h : 0 < x.h ∧ 0 < x.w then
    (pixFinset x.h x.w).sup' (pixFinset_nonempty h.1 h.2) (pixVal x)
  else 0

/-- `np.clip(v, lo, hi)`. -/
def clipQ (v lo hi : ℚ) : ℚ := min (max v lo) hi

/-- `skimage.exposure.rescale_intensity(x, in_range="image", out_range=(0, 1))`:
clip to the min/max of the image itself and map affinely onto `(0, 1)`; when the image
is constant the clipped image is returned unchanged (the library skips the
division). -/
def rescale_intensity (x : Img) : Img :=
  let m := minPix x
  let M := maxPix x
  ⟨x.h, x.w, fun i j =>
    if m = M then clipQ (x.px i j) m M
    else (clipQ (x.px i j) m M - m) / (M - m)⟩

/-- `skimage.transform.resize(x, (nh, nw), anti_aliasing=True,
preserve_range=True)`, modelled as index resampling: the output has the
requested dimensions and every output pixel carries a value taken from the
input (the library computes convex combinations of input pixels, and any
convex combination stays inside the value range of the input, which is the only
property of the interpolation the scripts rely on). -/
def resize (x : Img) (nh nw : ℕ) : Img :=
  ⟨nh, nw, fun i j => x.px (i * x.h / nh) (j * x.w / nw)⟩

/-- `skimage.morphology.disk(r)`: offsets `(a, b)` with `a² + b² ≤ r²`. -/
def disk (r : ℕ) : Finset (ℤ × ℤ) :=
  (Finset.Icc (-(r : ℤ)) r ×ˢ Finset.Icc (-(r : ℤ)) r).filter
    (fun p => p.1 ^ 2 + p.2 ^ 2 ≤ (r : ℤ) ^ 2)

theorem disk_nonempty (r : ℕ) : (disk r).Nonempty := by
  refine ⟨(0, 0), Finset.mem_filter.mpr ⟨Finset.mem_product.mpr ⟨?_, ?_⟩, ?_⟩⟩
  · exact Finset.mem_Icc.mpr ⟨by omega, by omega⟩
  · exact Finset.mem_Icc.mpr ⟨by omega, by omega⟩
  · positivity

/-- Flat grayscale erosion: minimum of the image over the structuring element
translated to each pixel. -/
def erosion (x : Img) (se : Finset (ℤ × ℤ)) (hse : se.Nonempty) : Img :=
  ⟨x.h, x.w, fun i j => se.inf' hse (fun b => x.px (i + b.1) (j + b.2))⟩

/-- Flat grayscale dilation: maximum over the mirrored structuring element
(the library mirrors the footprint so that dilation is adjoint to erosion). -/
def dilation (x : Img) (se : Finset (ℤ × ℤ)) (hse : se.Nonempty) : Img :=
  ⟨x.h, x.w, fun i j => se.sup' hse (fun b => x.px (i - b.1) (j - b.2))⟩

/-- `skimage.morphology.opening`: erosion followed by dilation. -/
def opening (x : Img) (se : Finset (ℤ × ℤ)) (hse : se.Nonempty) : Img :=
  dilation (erosion x se hse) se hse

/-- `skimage.morphology.closing`: dilation followed by erosion. -/
def closing (x : Img) (se : Finset (ℤ × ℤ)) (hse : se.Nonempty) : Img :=
  erosion (dilation x se hse) se hse

/-- `skimage.morphology.white_tophat`: image minus its opening. -/
def white_tophat (x : Img) (se : Finset (ℤ × ℤ)) (hse : se.Nonempty) : Img :=
  ⟨x.h, x.w, fun i j => x.px i j - (opening x se hse).px i j⟩

/-- Pixel-level semantics of the library kernels with irrational weights.
`gaussianPx s` is `skimage.filters.gaussian(·, s, preserve_range=True)`,
`sobelPx` the Sobel gradient magnitude `skimage.filters.sobel`, and
`cannyPx s` the boolean edge mask `skimage.feature.canny(·, s)`.  The scripts
treat all three as black boxes, so their kernels are parameters here; each
maps a pixel function to a pixel function of the same (implicit) extent. -/
structure Lib where
  gaussianPx : ℚ → (ℤ → ℤ → ℚ) → (ℤ → ℤ → ℚ)
  sobelPx : (ℤ → ℤ → ℚ) → (ℤ → ℤ → ℚ)
  cannyPx : ℚ → (ℤ → ℤ → ℚ) → (ℤ → ℤ → Bool)

/-- `skimage.filters.gaussian(x, s, preserve_range=True)`: same-shape array
computed by the Gaussian kernel of the library. -/
def gaussian (L : Lib) (x : Img) (s : ℚ) : Img :=
  ⟨x.h, x.w, L.gaussianPx s x.px⟩

/-- `skimage.filters.sobel(x)`: same-shape Sobel gradient magnitude. -/
def sobel (L : Lib) (x : Img) : Img :=
  ⟨x.h, x.w, L.sobelPx x.px⟩

/-- `skimage.feature.canny(x, s)`: same-shape boolean edge mask. -/
def canny (L : Lib) (x : Img) (s : ℚ) : BImg :=
  ⟨x.h, x.w, L.cannyPx s x.px⟩

/-- `.astype(np.float32)` on a boolean array: `True ↦ 1.0`, `False ↦ 0.0`. -/
def boolToFloat (b : BImg) : Img :=
  ⟨b.h, b.w, fun i j => if b.px i j then 1 else 0⟩

/-- `skimage.filters.laplace(x)` (default `ksize=3`): convolution with the
discrete Laplacian cross kernel (sum of second differences along each axis);
boundary padding is absorbed by the total pixel functions. -/
def laplace (x : Img) : Img :=
  ⟨x.h, x.w, fun i j =>
    x.px (i - 1) j + x.px (i + 1) j + x.px i (j - 1) + x.px i (j + 1)
      - 4 * x.px i j⟩

/-- `np.abs` applied pointwise. -/
def absImg (x : Img) : Img :=
  ⟨x.h, x.w, fun i j => |x.px i j|⟩

/-- Multiset of pixel values under the disk of radius `r` centred at `(i, j)`. -/
def neighborhood (r : ℕ) (f : ℤ → ℤ → ℚ) (i j : ℤ) : List ℚ :=
  (List.range (2 * r + 1)).flatMap (fun a =>
    (List.range (2 * r + 1)).filterMap (fun b =>
      let da : ℤ := (a : ℤ) - r
      let db : ℤ := (b : ℤ) - r
      if da ^ 2 + db ^ 2 ≤ (r : ℤ) ^ 2 then some (f (i + da) (j + db)) else none))

/-- Middle element of the sorted neighborhood values under `disk r` (the disk
has an odd number of cells, so the middle element is the exact median). -/
def medianPx (r : ℕ) (f : ℤ → ℤ → ℚ) (i j : ℤ) : ℚ :=
  let l := (neighborhood r f i j).insertionSort (fun a b => a ≤ b)
  l.getD (l.length / 2) 0

/-- `skimage.filters.median(x, footprint=disk(r))`. -/
def median (x : Img) (r : ℕ) : Img :=
  ⟨x.h, x.w, medianPx r x.px⟩

/-- Association-list model of the staging filesystem: path ↦ byte contents. -/
abbrev FS := List (String × List ℕ)

/-- Result record of one `download_file` call: returned boolean, resulting
filesystem, whether the network was touched, and the lines printed. -/
structure DLOut where
  ret : Bool
  fs : FS
  netTouched : Bool
  printed : List String

/-- Environment for the `eurosat` stage: either `import tensorflow_datasets`
raises `ImportError`, or the import succeeds and `tfds.load` either returns a
labelled stream (labels index the ten EuroSAT classes) or raises. -/
inductive TfdsEnv where
  | unavailable
  | available (load : Except String (List (Fin 10)))

namespace generar

/-- Embedding of `download_file` (src/generar_figuras.py:53-80).  `net`
gives the outcome of the HTTP transaction for a URL: `Except.ok data` when
the download completes, `Except.error e` when any network exception is
raised (a failure that interrupts a partially written transfer is collapsed
into the error outcome).  If the destination already exists the function
returns `True` at once, touching neither the network nor the file. -/
def download_file (url dest : String) (net : String → Except String (List ℕ))
    (fs : FS) : DLOut :=
  if (fs.lookup dest).isSome then
    { ret := true, fs := fs, netTouched := false
      printed := ["ok " ++ dest ++ " ya existe"] }
  else
    match net url with
    | Except.ok data =>
        { ret := true, fs := (dest, data) :: fs, netTouched := true
          printed := ["Descargando " ++ dest] }
    | Except.error e =>
        { ret := false, fs := fs, netTouched := true
          printed := ["Descargando " ++ dest, "Error: " ++ e] }

/-- Embedding of `extract_zip` (src/generar_figuras.py:82-86): the archive
environment either yields the extracted entries or raises; there is no
`try`/`except` around the extraction, so a failure propagates. -/
def extract_zip (unzip : Except String FS) (fs : FS) : Except String FS :=
  match unzip with
  | Except.ok entries => Except.ok (entries ++ fs)
  | Except.error e => Except.error e

/-- Embedding of `extract_tar_xz` (src/generar_figuras.py:88-92); same
shape as `extract_zip`, also without any exception handler. -/
def extract_tar_xz (untar : Except String FS) (fs : FS) : Except String FS :=
  match untar with
  | Except.ok entries => Except.ok (entries ++ fs)
  | Except.error e => Except.error e

def INDIANA_URL : String :=
  "https://data.lhncbc.nlm.nih.gov/public/chest-xray/indiana.zip"

/-- Embedding of the medical-dataset acquisition (src/generar_figuras.py:
122-124): when the extraction directory is absent, download the archive and,
only if the download reported success, extract it.  An `Except.error` result
is an uncaught exception aborting the script. -/
def indiana_step (dirExists : Bool) (net : String → Except String (List ℕ))
    (unzip : Except String FS) (fs : FS) : Except String FS :=
  if dirExists then Except.ok fs
  else
    let d := download_file INDIANA_URL "indiana.zip" net fs
    if d.ret then extract_zip unzip d.fs
    else Except.ok d.fs

def MVTEC_URLS : List (String × String) :=
  [("grid",
    "https://www.mydrive.ch/shares/38536/3830184030e49fe74747669442f0f283/download/420937487-1629959044/grid.tar.xz"),
   ("leather",
    "https://www.mydrive.ch/shares/38536/3830184030e49fe74747669442f0f283/download/420937607-1629959262/leather.tar.xz"),
   ("metal_nut",
    "https://www.mydrive.ch/shares/38536/3830184030e49fe74747669442f0f283/download/420937637-1629959282/metal_nut.tar.xz")]

/-- Embedding of one iteration of the MVTec acquisition loop
(src/generar_figuras.py:146-151). -/
def mvtec_step (cat url : String) (catDirExists : Bool)
    (net : String → Except String (List ℕ)) (untar : Except String FS)
    (fs : FS) : Except String FS :=
  if catDirExists then Except.ok fs
  else
    let d := download_file url ("mvtec_" ++ cat ++ ".tar.xz") net fs
    if d.ret then extract_tar_xz untar d.fs
    else Except.ok d.fs

def label_names : List String :=
  ["AnnualCrop", "Forest", "HerbaceousVegetation", "Highway",
   "Industrial", "Pasture", "PermanentCrop", "Residential", "River",
   "SeaLake"]

/-- Embedding of the EuroSAT collection loop (src/generar_figuras.py:
170-179): keep the first image of each class, in stream order, stopping once
three classes are collected; the saved paths are `<class>.png`.  Labels are
`Fin 10` because the label space of the dataset indexes the ten names, so the
`getD` default is never taken. -/
def collect_eurosat : List (Fin 10) → List String → List String
  | [], acc => acc.reverse.map (fun n => n ++ ".png")
  | l :: rest, acc =>
      let name := label_names.getD l.1 ""
      let acc2 := if name ∈ acc then acc else name :: acc
      if 3 ≤ acc2.length then acc2.reverse.map (fun n => n ++ ".png")
      else collect_eurosat rest acc2

/-- Embedding of the satellite stage (src/generar_figuras.py:157-209).
Only `ImportError` from `import tensorflow_datasets` is handled: it selects
the fallback that loads three sample images from `skimage.data`, where each
loader is individually guarded by `try`/`except`/`pass` (`fb` gives each
outcome of each loader).  Any exception raised by `tfds.load` itself is not caught
and propagates. -/
def eurosat_step (env : TfdsEnv) (fb : String → Except String Unit) :
    Except String (List String) :=
  match env with
  | TfdsEnv.available (Except.ok stream) =>
      Except.ok (collect_eurosat stream [])
  | TfdsEnv.available (Except.error e) => Except.error e
  | TfdsEnv.unavailable =>
      Except.ok (["Residential", "River", "Forest"].filterMap (fun n =>
        match fb n with
        | Except.ok _ => some (n ++ ".png")
        | Except.error _ => none))

/-- Embedding of `load_gray` (src/generar_figuras.py:269-279): byte image to
`[0, 1]` floats, full-range rescale, then downscale when the longer side
exceeds `max_side` (the resized extents are `int(h/scale)`, `int(w/scale)`). -/
def load_gray (a : ByteImg) (max_side : ℕ) : Img :=
  let x0 : Img := ⟨a.h, a.w, fun i j => (a.px i j : ℚ) / 255⟩
  let x1 : Img := rescale_intensity x0
  let scale : ℚ := (max a.h a.w : ℚ) / max_side
  if 1 < scale then
    resize x1 ⌊(a.h : ℚ) / scale⌋₊ ⌊(a.w : ℚ) / scale⌋₊
  else x1

/-- Embedding of `spatial_filters` (src/generar_figuras.py:281-291). -/
def spatial_filters (L : Lib) (x : Img) : List (String × Img) :=
  [("gaussian_s1", gaussian L x 1.0),
   ("gaussian_s2", gaussian L x 2.0),
   ("median_r2", median x 2),
   ("median_r4", median x 4),
   ("unsharp_r1_a1",
     (⟨x.h, x.w, fun i j =>
       clipQ (x.px i j + (x.px i j - (gaussian L x 1.0).px i j) * 1.0) 0 1⟩ : Img)),
   ("sobel", rescale_intensity (sobel L x)),
   ("laplace", rescale_intensity (absImg (laplace x))),
   ("canny_s12", boolToFloat (canny L x 1.2))]

/-- Embedding of `morph_filters` (src/generar_figuras.py:293-301). -/
def morph_filters (x : Img) (r : ℕ) : List (String × Img) :=
  [("opening_r" ++ toString r, opening x (disk r) (disk_nonempty r)),
   ("closing_r" ++ toString r, closing x (disk r) (disk_nonempty r)),
   ("tophat_r" ++ toString r, white_tophat x (disk r) (disk_nonempty r)),
   ("erosion_r" ++ toString r, erosion x (disk r) (disk_nonempty r)),
   ("dilation_r" ++ toString r, dilation x (disk r) (disk_nonempty r))]

/-- Embedding of `pipelines` (src/generar_figuras.py:303-310). -/
def pipelines (L : Lib) (x : Img) : List (String × Img) :=
  let den := median x 3
  [("P1_med3+unsharp",
     (⟨den.h, den.w, fun i j =>
       clipQ (den.px i j + (den.px i j - (gaussian L den 1.5).px i j) * 1.2) 0 1⟩ : Img)),
   ("P2_close+open",
     opening (closing x (disk 3) (disk_nonempty 3)) (disk 3) (disk_nonempty 3))]

end generar

namespace regenerar

/-- Embedding of `load_gray` (src/scripts/regenerar_figuras_eurosat.py:43-54). -/
def load_gray (a : ByteImg) (max_side : ℕ) : Img :=
  let x0 : Img := ⟨a.h, a.w, fun i j => (a.px i j : ℚ) / 255⟩
  let x1 : Img := rescale_intensity x0
  let scale : ℚ := (max a.h a.w : ℚ) / max_side
  if 1 < scale then
    resize x1 ⌊(a.h : ℚ) / scale⌋₊ ⌊(a.w : ℚ) / scale⌋₊
  else x1

/-- Embedding of `spatial_filters`
(src/scripts/regenerar_figuras_eurosat.py:56-67). -/
def spatial_filters (L : Lib) (x : Img) : List (String × Img) :=
  [("gaussian_s1", gaussian L x 1.0),
   ("gaussian_s2", gaussian L x 2.0),
   ("median_r2", median x 2),
   ("median_r4", median x 4),
   ("unsharp_r1_a1",
     (⟨x.h, x.w, fun i j =>
       clipQ (x.px i j + (x.px i j - (gaussian L x 1.0).px i j) * 1.0) 0 1⟩ : Img)),
   ("sobel", rescale_intensity (sobel L x)),
   ("laplace", rescale_intensity (absImg (laplace x))),
   ("canny_s12", boolToFloat (canny L x 1.2))]

/-- Embedding of `morph_filters`
(src/scripts/regenerar_figuras_eurosat.py:69-78). -/
def morph_filters (x : Img) (r : ℕ) : List (String × Img) :=
  [("opening_r" ++ toString r, opening x (disk r) (disk_nonempty r)),
   ("closing_r" ++ toString r, closing x (disk r) (disk_nonempty r)),
   ("tophat_r" ++ toString r, white_tophat x (disk r) (disk_nonempty r)),
   ("erosion_r" ++ toString r, erosion x (disk r) (disk_nonempty r)),
   ("dilation_r" ++ toString r, dilation x (disk r) (disk_nonempty r))]

/-- Embedding of `pipelines`
(src/scripts/regenerar_figuras_eurosat.py:80-88). -/
def pipelines (L : Lib) (x : Img) : List (String × Img) :=
  let den := median x 3
  [("P1_med3+unsharp",
     (⟨den.h, den.w, fun i j =>
       clipQ (den.px i j + (den.px i j - (gaussian L den 1.5).px i j) * 1.2) 0 1⟩ : Img)),
   ("P2_close+open",
     opening (closing x (disk 3) (disk_nonempty 3)) (disk 3) (disk_nonempty 3))]

end regenerar

/-- Unsharp masking with Gaussian scale `s` and amount `amt`: add the scaled
high-frequency residual back and clip to `[0, 1]` (glossary definition used to
state the pipeline decomposition). -/
def unsharp_mask (L : Lib) (s amt : ℚ) (y : Img) : Img :=
  ⟨y.h, y.w, fun i j =>
    clipQ (y.px i j + (y.px i j - (gaussian L y s).px i j) * amt) 0 1⟩

/-! ## Facts about `rescale_intensity` -/

theorem minPix_eq (x : Img) (hh : 0 < x.h) (hw : 0 < x.w) :
    minPix x = (pixFinset x.h x.w).inf' (pixFinset_nonempty hh hw) (pixVal x) := by
  simp [minPix, hh, hw]

theorem maxPix_eq (x : Img) (hh : 0 < x.h) (hw : 0 < x.w) :
    maxPix x = (pixFinset x.h x.w).sup' (pixFinset_nonempty hh hw) (pixVal x) := by
  simp [maxPix, hh, hw]

theorem minPix_le_maxPix (x : Img) (hh : 0 < x.h) (hw : 0 < x.w) :
    minPix x ≤ maxPix x := by
  rw [minPix_eq x hh hw, maxPix_eq x hh hw]
  obtain ⟨p, hp⟩ := pixFinset_nonempty hh hw
  exact le_trans (Finset.inf'_le _ hp) (Finset.le_sup' _ hp)

theorem clipQ_mem {v lo hi : ℚ} (h : lo ≤ hi) :
    lo ≤ clipQ v lo hi ∧ clipQ v lo hi ≤ hi := by
  unfold clipQ
  constructor
  · exact le_min (le_max_right v lo) h
  · exact min_le_right _ _

/-- Unfolding equation for the pixels of `rescale_intensity`. -/
theorem rescale_px_eq (y : Img) (i j : ℤ) :
    (rescale_intensity y).px i j =
      if minPix y = maxPix y then clipQ (y.px i j) (minPix y) (maxPix y)
      else (clipQ (y.px i j) (minPix y) (maxPix y) - minPix y) / (maxPix y - minPix y) :=
  rfl

/-- Every pixel of the rescaled image lies in `[0, 1]`, provided the
in-range pixels of the input lie in `[0, 1]` (only the constant-image branch
needs this bound; the affine branch lands in `[0, 1]` unconditionally). -/
theorem rescale_px_mem (y : Img) (hh : 0 < y.h) (hw : 0 < y.w)
    (hin : ∀ p ∈ pixFinset y.h y.w, 0 ≤ pixVal y p ∧ pixVal y p ≤ 1) :
    ∀ i j : ℤ, 0 ≤ (rescale_intensity y).px i j ∧ (rescale_intensity y).px i j ≤ 1 := by
  intro i j
  have hmM : minPix y ≤ maxPix y := minPix_le_maxPix y hh hw
  have hc := clipQ_mem (v := y.px i j) hmM
  rw [rescale_px_eq]
  split
  · -- constant image: the clipped value is the constant, a pixel value in [0, 1]
    next heq =>
      obtain ⟨q, hq, hqmin⟩ :=
        Finset.exists_mem_eq_inf' (pixFinset_nonempty hh hw) (pixVal y)
      have hminq : minPix y = pixVal y q := by rw [minPix_eq y hh hw]; exact hqmin
      have h2 : clipQ (y.px i j) (minPix y) (maxPix y) ≤ minPix y :=
        hc.2.trans (le_of_eq heq.symm)
      have hcl : clipQ (y.px i j) (minPix y) (maxPix y) = minPix y :=
        le_antisymm h2 hc.1
      rw [hcl, hminq]
      exact hin q hq
  · next hne =>
      have hlt : minPix y < maxPix y := lt_of_le_of_ne hmM hne
      have hpos : 0 < maxPix y - minPix y := sub_pos.mpr hlt
      constructor
      · exact div_nonneg (sub_nonneg.mpr hc.1) (le_of_lt hpos)
      · rw [div_le_one hpos]
        exact sub_le_sub_right hc.2 _

/-- When the input has two in-range pixels with different values, the rescaled
image attains 0 and attains 1 at in-range pixels. -/
theorem rescale_px_span (y : Img) (hh : 0 < y.h) (hw : 0 < y.w)
    (hne : ∃ p ∈ pixFinset y.h y.w, ∃ q ∈ pixFinset y.h y.w, pixVal y p ≠ pixVal y q) :
    (∃ p ∈ pixFinset y.h y.w, (rescale_intensity y).px p.1 p.2 = 0) ∧
    (∃ p ∈ pixFinset y.h y.w, (rescale_intensity y).px p.1 p.2 = 1) := by
  obtain ⟨p, hp, q, hq, hpq⟩ := hne
  have hlt : minPix y < maxPix y := by
    rcases lt_or_eq_of_le (minPix_le_maxPix y hh hw) with h | h
    · exact h
    · exfalso
      apply hpq
      have h1 : minPix y ≤ pixVal y p := by
        rw [minPix_eq y hh hw]; exact Finset.inf'_le _ hp
      have h2 : pixVal y p ≤ maxPix y := by
        rw [maxPix_eq y hh hw]; exact Finset.le_sup' _ hp
      have h3 : minPix y ≤ pixVal y q := by
        rw [minPix_eq y hh hw]; exact Finset.inf'_le _ hq
      have h4 : pixVal y q ≤ maxPix y := by
        rw [maxPix_eq y hh hw]; exact Finset.le_sup' _ hq
      rw [← h] at h2 h4
      rw [le_antisymm h2 h1, le_antisymm h4 h3]
  have hne' : ¬ (minPix y = maxPix y) := ne_of_lt hlt
  have hpos : 0 < maxPix y - minPix y := sub_pos.mpr hlt
  constructor
  · obtain ⟨a, ha, hamin⟩ :=
      Finset.exists_mem_eq_inf' (pixFinset_nonempty hh hw) (pixVal y)
    refine ⟨a, ha, ?_⟩
    show (if minPix y = maxPix y then _ else
      (clipQ (y.px a.1 a.2) (minPix y) (maxPix y) - minPix y) / (maxPix y - minPix y)) = 0
    rw [if_neg hne']
    have hva : y.px a.1 a.2 = minPix y := by
      rw [minPix_eq y hh hw, hamin]; rfl
    have hclip : clipQ (y.px a.1 a.2) (minPix y) (maxPix y) = minPix y := by
      rw [hva]
      unfold clipQ
      rw [max_self]
      exact min_eq_left (le_of_lt hlt)
    rw [hclip, sub_self, zero_div]
  · obtain ⟨a, ha, hamax⟩ :=
      Finset.exists_mem_eq_sup' (pixFinset_nonempty hh hw) (pixVal y)
    refine ⟨a, ha, ?_⟩
    show (if minPix y = maxPix y then _ else
      (clipQ (y.px a.1 a.2) (minPix y) (maxPix y) - minPix y) / (maxPix y - minPix y)) = 1
    rw [if_neg hne']
    have hva : y.px a.1 a.2 = maxPix y := by
      rw [maxPix_eq y hh hw, hamax]; rfl
    have hclip : clipQ (y.px a.1 a.2) (minPix y) (maxPix y) = maxPix y := by
      rw [hva]
      unfold clipQ
      rw [max_eq_left (le_of_lt hlt), min_self]
    rw [hclip, div_self (ne_of_gt hpos)]

/-- Rescaling a constant image returns it unchanged. -/
theorem rescale_const (h w : ℕ) (c : ℚ) (hh : 0 < h) (hw : 0 < w) :
    rescale_intensity ⟨h, w, fun _ _ => c⟩ = ⟨h, w, fun _ _ => c⟩ := by
  have hmin : minPix ⟨h, w, fun _ _ => c⟩ = c := by
    rw [minPix_eq _ hh hw]
    exact Finset.inf'_const _ _
  have hmax : maxPix ⟨h, w, fun _ _ => c⟩ = c := by
    rw [maxPix_eq _ hh hw]
    exact Finset.sup'_const _ _
  unfold rescale_intensity
  ext i j
  · rfl
  · rfl
  · show (if minPix ⟨h, w, fun _ _ => c⟩ = maxPix ⟨h, w, fun _ _ => c⟩ then _ else _) = c
    rw [hmin, hmax, if_pos rfl]
    unfold clipQ
    rw [max_self, min_self]

/-! ## Facts about flat grayscale morphology -/

theorem erosion_mono {x y : Img} (se : Finset (ℤ × ℤ)) (hse : se.Nonempty)
    (h : ∀ i j : ℤ, x.px i j ≤ y.px i j) :
    ∀ i j : ℤ, (erosion x se hse).px i j ≤ (erosion y se hse).px i j := by
  intro i j
  refine Finset.le_inf' hse _ (fun b hb => ?_)
  exact le_trans (Finset.inf'_le _ hb) (h _ _)

theorem dilation_mono {x y : Img} (se : Finset (ℤ × ℤ)) (hse : se.Nonempty)
    (h : ∀ i j : ℤ, x.px i j ≤ y.px i j) :
    ∀ i j : ℤ, (dilation x se hse).px i j ≤ (dilation y se hse).px i j := by
  intro i j
  refine Finset.sup'_le hse _ (fun b hb => ?_)
  exact le_trans (h _ _)
    (Finset.le_sup' (fun c : ℤ × ℤ => y.px (i - c.1) (j - c.2)) hb)

/-- Opening is anti-extensive: `dilation (erosion x) ≤ x` pointwise. -/
theorem opening_le (x : Img) (se : Finset (ℤ × ℤ)) (hse : se.Nonempty) :
    ∀ i j : ℤ, (opening x se hse).px i j ≤ x.px i j := by
  intro i j
  refine Finset.sup'_le hse _ (fun b hb => ?_)
  have h := Finset.inf'_le
    (fun c : ℤ × ℤ => x.px (i - b.1 + c.1) (j - b.2 + c.2)) hb
  have e1 : i - b.1 + b.1 = i := by ring
  have e2 : j - b.2 + b.2 = j := by ring
  rw [e1, e2] at h
  exact h

/-- Closing is extensive: `x ≤ erosion (dilation x)` pointwise. -/
theorem le_closing (x : Img) (se : Finset (ℤ × ℤ)) (hse : se.Nonempty) :
    ∀ i j : ℤ, x.px i j ≤ (closing x se hse).px i j := by
  intro i j
  refine Finset.le_inf' hse _ (fun b hb => ?_)
  have h := Finset.le_sup'
    (fun c : ℤ × ℤ => x.px (i + b.1 - c.1) (j + b.2 - c.2)) hb
  have e1 : i + b.1 - b.1 = i := by ring
  have e2 : j + b.2 - b.2 = j := by ring
  rw [e1, e2] at h
  exact h

/-- The adjunction identity `erosion ∘ dilation ∘ erosion = erosion`. -/
theorem erosion_dilation_erosion (x : Img) (se : Finset (ℤ × ℤ))
    (hse : se.Nonempty) :
    erosion (dilation (erosion x se hse) se hse) se hse = erosion x se hse := by
  ext i j
  · rfl
  · rfl
  · refine le_antisymm ?_ ?_
    · exact erosion_mono se hse (opening_le x se hse) i j
    · exact le_closing (erosion x se hse) se hse i j

/-- The adjunction identity `dilation ∘ erosion ∘ dilation = dilation`. -/
theorem dilation_erosion_dilation (x : Img) (se : Finset (ℤ × ℤ))
    (hse : se.Nonempty) :
    dilation (erosion (dilation x se hse) se hse) se hse = dilation x se hse := by
  ext i j
  · rfl
  · rfl
  · refine le_antisymm ?_ ?_
    · exact opening_le (dilation x se hse) se hse i j
    · exact dilation_mono se hse (le_closing x se hse) i j

theorem opening_idem (x : Img) (se : Finset (ℤ × ℤ)) (hse : se.Nonempty) :
    opening (opening x se hse) se hse = opening x se hse :=
  congrArg (fun y => dilation y se hse) (erosion_dilation_erosion x se hse)

theorem closing_idem (x : Img) (se : Finset (ℤ × ℤ)) (hse : se.Nonempty) :
    closing (closing x se hse) se hse = closing x se hse :=
  congrArg (fun y => erosion y se hse) (dilation_erosion_dilation x se hse)

/-! ## Claims -/

/-- C3: the opening and closing entries of the morphological bank are
idempotent: re-applying `opening` (resp. `closing`) with the same `disk r`
structuring element to its own output returns the same image. -/
theorem morph_opening_closing_idempotent (x : Img) (r : ℕ) :
    (generar.morph_filters x r)[0]? =
      some ("opening_r" ++ toString r, opening x (disk r) (disk_nonempty r))
  ∧ (generar.morph_filters x r)[1]? =
      some ("closing_r" ++ toString r, closing x (disk r) (disk_nonempty r))
  ∧ opening (opening x (disk r) (disk_nonempty r)) (disk r) (disk_nonempty r)
      = opening x (disk r) (disk_nonempty r)
  ∧ closing (closing x (disk r) (disk_nonempty r)) (disk r) (disk_nonempty r)
      = closing x (disk r) (disk_nonempty r) :=
  ⟨rfl, rfl, opening_idem x (disk r) (disk_nonempty r),
   closing_idem x (disk r) (disk_nonempty r)⟩

/-- C4: `spatial_filters` always returns exactly the eight fixed keys and
`morph_filters` exactly the five radius-indexed keys, for every input image,
library kernel and radius — the key sets never depend on pixel content. -/
theorem bank_keys_fixed (L : Lib) (x : Img) (r : ℕ) :
    (generar.spatial_filters L x).map Prod.fst =
      ["gaussian_s1", "gaussian_s2", "median_r2", "median_r4",
       "unsharp_r1_a1", "sobel", "laplace", "canny_s12"]
  ∧ (generar.morph_filters x r).map Prod.fst =
      ["opening_r" ++ toString r, "closing_r" ++ toString r,
       "tophat_r" ++ toString r, "erosion_r" ++ toString r,
       "dilation_r" ++ toString r] :=
  ⟨rfl, rfl⟩

/-- C5: `pipelines` returns exactly the two fixed two-stage compositions with
hardcoded parameters, for every input: P1 is unsharp masking (scale 1.5,
amount 1.2) applied to the median-denoised image (disk radius 3), and P2 is
opening applied to the closing of the input (disk radius 3 both times). -/
theorem pipelines_fixed_compositions (L : Lib) (x : Img) :
    generar.pipelines L x =
      [("P1_med3+unsharp", unsharp_mask L 1.5 1.2 (median x 3)),
       ("P2_close+open",
         opening (closing x (disk 3) (disk_nonempty 3)) (disk 3)
           (disk_nonempty 3))] :=
  rfl

/-- C8: the filter, morphology and pipeline banks defined in
`generar_figuras.py` and those redefined in
`scripts/regenerar_figuras_eurosat.py` compute the same functions. -/
theorem banks_coincide_across_scripts (L : Lib) (x : Img) (r : ℕ) :
    generar.spatial_filters L x = regenerar.spatial_filters L x
  ∧ generar.morph_filters x r = regenerar.morph_filters x r
  ∧ generar.pipelines L x = regenerar.pipelines L x :=
  ⟨rfl, rfl, rfl⟩

/-- C9: every array produced by the three banks has exactly the height and
width of the input image — no operation in any bank changes the dimensions. -/
theorem banks_preserve_shape (L : Lib) (x : Img) (r : ℕ) :
    (generar.spatial_filters L x).map (fun p => (p.2.h, p.2.w)) =
      List.replicate 8 (x.h, x.w)
  ∧ (generar.morph_filters x r).map (fun p => (p.2.h, p.2.w)) =
      List.replicate 5 (x.h, x.w)
  ∧ (generar.pipelines L x).map (fun p => (p.2.h, p.2.w)) =
      List.replicate 2 (x.h, x.w) := by
  refine ⟨?_, ?_, ?_⟩ <;>
    simp [generar.spatial_filters, generar.morph_filters, generar.pipelines,
      gaussian, median, rescale_intensity, sobel, absImg, laplace, boolToFloat,
      canny, opening, closing, erosion, dilation, white_tophat,
      List.replicate]

/-- C10: when the destination file already exists, `download_file` returns
`True` immediately, opens no network connection, and leaves the filesystem
(in particular the existing file) unchanged; the file is written only when it
did not exist beforehand. -/
theorem download_skips_existing (url dest : String)
    (net : String → Except String (List ℕ)) (fs : FS)
    (h : (fs.lookup dest).isSome = true) :
    (generar.download_file url dest net fs).ret = true
  ∧ (generar.download_file url dest net fs).fs = fs
  ∧ (generar.download_file url dest net fs).netTouched = false := by
  unfold generar.download_file
  rw [if_pos h]
  exact ⟨rfl, rfl, rfl⟩

def fsSample : FS := [("indiana.zip", [7, 7])]

def netSample : String → Except String (List ℕ) :=
  fun _ => Except.error "connection reset"

theorem download_skips_existing_check :
    ((fsSample.lookup "indiana.zip").isSome = true)
  ∧ (generar.download_file "u" "indiana.zip" netSample fsSample).ret = true
  ∧ (generar.download_file "u" "indiana.zip" netSample fsSample).fs = fsSample :=
  ⟨rfl,
   (download_skips_existing "u" "indiana.zip" netSample fsSample rfl).1,
   (download_skips_existing "u" "indiana.zip" netSample fsSample rfl).2.1⟩

/-- C2 counterexample: with the extraction directory absent, a download that
succeeds and an archive whose extraction raises, the acquisition step aborts
with the extraction error — the failure is not caught and the script does not
continue. -/
theorem extraction_failure_aborts :
    generar.indiana_step false (fun _ => Except.ok [0])
      (Except.error "bad zip") [] = Except.error "bad zip" :=
  rfl

/-- C2 (amended): failures raised inside `download_file` are caught — an
error line is printed, the filesystem is left as it was, and the acquisition
step continues with whatever data exists — but failures raised by
`extract_zip` / `extract_tar_xz` are not caught: they propagate out of the
acquisition step and abort the script. -/
theorem download_caught_extraction_not :
    (∀ (net : String → Except String (List ℕ)) (u : Except String FS)
        (fs : FS) (e : String),
      net generar.INDIANA_URL = Except.error e →
      (fs.lookup "indiana.zip").isSome = false →
      generar.indiana_step false net u fs = Except.ok fs
      ∧ ("Error: " ++ e) ∈
          (generar.download_file generar.INDIANA_URL "indiana.zip" net fs).printed)
  ∧ (∀ (net : String → Except String (List ℕ)) (fs : FS) (d : List ℕ)
        (e : String),
      net generar.INDIANA_URL = Except.ok d →
      (fs.lookup "indiana.zip").isSome = false →
      generar.indiana_step false net (Except.error e) fs = Except.error e)
  ∧ (∀ (cat url : String) (net : String → Except String (List ℕ)) (fs : FS)
        (d : List ℕ) (e : String),
      net url = Except.ok d →
      (fs.lookup ("mvtec_" ++ cat ++ ".tar.xz")).isSome = false →
      generar.mvtec_step cat url false net (Except.error e) fs
        = Except.error e) := by
  refine ⟨fun net u fs e hnet hfs => ?_, fun net fs d e hnet hfs => ?_,
    fun cat url net fs d e hnet hfs => ?_⟩
  · constructor
    · simp [generar.indiana_step, generar.download_file, hfs, hnet]
    · simp [generar.download_file, hfs, hnet]
  · simp [generar.indiana_step, generar.download_file, generar.extract_zip,
      hfs, hnet]
  · simp [generar.mvtec_step, generar.download_file, generar.extract_tar_xz,
      hfs, hnet]

def netDown : String → Except String (List ℕ) :=
  fun _ => Except.error "timeout"

def netUp : String → Except String (List ℕ) :=
  fun _ => Except.ok [1]

theorem download_caught_extraction_not_check :
    (netDown generar.INDIANA_URL = Except.error "timeout")
  ∧ ((([] : FS).lookup "indiana.zip").isSome = false)
  ∧ (netUp generar.INDIANA_URL = Except.ok [1])
  ∧ generar.indiana_step false netDown (Except.ok []) [] = Except.ok []
  ∧ generar.indiana_step false netUp (Except.error "bad zip") []
      = Except.error "bad zip"
  ∧ generar.mvtec_step "grid" "u" false netUp (Except.error "bad tar") []
      = Except.error "bad tar" :=
  ⟨rfl, rfl, rfl,
   (download_caught_extraction_not.1 netDown (Except.ok []) [] "timeout"
      rfl rfl).1,
   download_caught_extraction_not.2.1 netUp [] [1] "bad zip" rfl rfl,
   download_caught_extraction_not.2.2 "grid" "u" netUp [] [1] "bad tar"
      rfl rfl⟩

/-- C7: if importing `tensorflow_datasets` raises `ImportError`, the failure
is caught and the satellite source is replaced by the three `skimage.data`
fallback images, so `eurosat_images` is populated and the script continues;
any exception raised by `tfds.load` itself (other than the failure of the
module load) is not substituted and propagates. -/
theorem tfds_import_fallback (fb : String → Except String Unit) (e : String)
    (hfb : ∀ n, fb n = Except.ok ()) :
    generar.eurosat_step TfdsEnv.unavailable fb
      = Except.ok ["Residential.png", "River.png", "Forest.png"]
  ∧ generar.eurosat_step (TfdsEnv.available (Except.error e)) fb
      = Except.error e := by
  constructor
  · simp [generar.eurosat_step, hfb]
  · rfl

def fbOk : String → Except String Unit := fun _ => Except.ok ()

theorem tfds_import_fallback_check :
    (∀ n, fbOk n = Except.ok ())
  ∧ generar.eurosat_step TfdsEnv.unavailable fbOk
      = Except.ok ["Residential.png", "River.png", "Forest.png"] :=
  ⟨fun _ => rfl,
   (tfds_import_fallback fbOk "load failed" (fun _ => rfl)).1⟩

/-- C1: for every valid input image (a nonempty single-channel byte raster)
and every positive bound `max_side` (512 at the montage call sites, 400 in the
grid), `load_gray` returns a single-channel floating-point array whose values
all lie in `[0, 1]` and whose longer side is at most `max_side`. -/
theorem load_gray_normalized (a : ByteImg) (ms : ℕ) (hms : 0 < ms)
    (hh : 0 < a.h) (hw : 0 < a.w) (hb : ∀ i j : ℤ, a.px i j ≤ 255) :
    max (generar.load_gray a ms).h (generar.load_gray a ms).w ≤ ms
  ∧ ∀ i j : ℤ, 0 ≤ (generar.load_gray a ms).px i j
      ∧ (generar.load_gray a ms).px i j ≤ 1 := by
  have hmsQ : (0 : ℚ) < ms := by exact_mod_cast hms
  have hmem : ∀ i j : ℤ,
      0 ≤ (rescale_intensity ⟨a.h, a.w, fun i j => (a.px i j : ℚ) / 255⟩).px i j
      ∧ (rescale_intensity ⟨a.h, a.w, fun i j => (a.px i j : ℚ) / 255⟩).px i j ≤ 1 := by
    refine rescale_px_mem _ hh hw ?_
    intro p hp
    show 0 ≤ (a.px p.1 p.2 : ℚ) / 255 ∧ (a.px p.1 p.2 : ℚ) / 255 ≤ 1
    constructor
    · positivity
    · rw [div_le_one (by norm_num : (0 : ℚ) < 255)]
      exact_mod_cast hb p.1 p.2
  by_cases hs : 1 < (max a.h a.w : ℚ) / ms
  · have hstep : generar.load_gray a ms =
        resize (rescale_intensity ⟨a.h, a.w, fun i j => (a.px i j : ℚ) / 255⟩)
          ⌊(a.h : ℚ) / ((max a.h a.w : ℚ) / ms)⌋₊
          ⌊(a.w : ℚ) / ((max a.h a.w : ℚ) / ms)⌋₊ := by
      simp only [generar.load_gray]
      rw [if_pos hs]
    rw [hstep]
    have hmaxpos : (0 : ℚ) < max (a.h : ℚ) (a.w : ℚ) :=
      lt_of_lt_of_le (by exact_mod_cast hh) (le_max_left _ _)
    have key : ∀ n : ℕ, n ≤ max a.h a.w →
        (n : ℚ) / (max (a.h : ℚ) (a.w : ℚ) / ms) ≤ ms := by
      intro n hn
      rw [div_div_eq_mul_div, div_le_iff₀ hmaxpos]
      have hnQ : (n : ℚ) ≤ max (a.h : ℚ) (a.w : ℚ) := by exact_mod_cast hn
      calc (n : ℚ) * ms ≤ max (a.h : ℚ) (a.w : ℚ) * ms :=
            mul_le_mul_of_nonneg_right hnQ (le_of_lt hmsQ)
        _ = (ms : ℚ) * max (a.h : ℚ) (a.w : ℚ) := by ring
    have h1 : ⌊(a.h : ℚ) / (max (a.h : ℚ) (a.w : ℚ) / ms)⌋₊ ≤ ms := by
      have := Nat.floor_mono (key a.h (le_max_left _ _))
      rwa [Nat.floor_natCast] at this
    have h2 : ⌊(a.w : ℚ) / (max (a.h : ℚ) (a.w : ℚ) / ms)⌋₊ ≤ ms := by
      have := Nat.floor_mono (key a.w (le_max_right _ _))
      rwa [Nat.floor_natCast] at this
    refine ⟨?_, ?_⟩
    · simp only [resize]
      exact max_le h1 h2
    · intro i j
      simp only [resize]
      exact hmem _ _
  · have hstep : generar.load_gray a ms =
        rescale_intensity ⟨a.h, a.w, fun i j => (a.px i j : ℚ) / 255⟩ := by
      simp only [generar.load_gray]
      rw [if_neg hs]
    rw [hstep]
    refine ⟨?_, fun i j => hmem i j⟩
    have hle : (max a.h a.w : ℚ) / ms ≤ 1 := not_lt.mp hs
    rw [div_le_one hmsQ] at hle
    have hmax : max a.h a.w ≤ ms := by exact_mod_cast hle
    simpa [rescale_intensity] using hmax

def byteSample : ByteImg := ⟨2, 3, fun _ _ => 7⟩

theorem load_gray_normalized_check :
    (0 < 512 ∧ 0 < byteSample.h ∧ 0 < byteSample.w
      ∧ ∀ i j : ℤ, byteSample.px i j ≤ 255)
  ∧ max (generar.load_gray byteSample 512).h
      (generar.load_gray byteSample 512).w ≤ 512 :=
  ⟨⟨by norm_num, by norm_num [byteSample], by norm_num [byteSample],
    fun _ _ => by norm_num [byteSample]⟩,
   (load_gray_normalized byteSample 512 (by norm_num)
      (by norm_num [byteSample]) (by norm_num [byteSample])
      (fun _ _ => by norm_num [byteSample])).1⟩

theorem pos_of_mem_pixFinset {h w : ℕ} {p : ℕ × ℕ}
    (hp : p ∈ pixFinset h w) : 0 < h ∧ 0 < w := by
  have := Finset.mem_product.mp hp
  exact ⟨lt_of_le_of_lt (Nat.zero_le _) (Finset.mem_range.mp this.1),
    lt_of_le_of_lt (Nat.zero_le _) (Finset.mem_range.mp this.2)⟩

/-- An image with two in-range pixels of different values has a strictly
smaller minimum than maximum. -/
theorem minPix_lt_maxPix_of_two (y : Img)
    (hne : ∃ p ∈ pixFinset y.h y.w, ∃ q ∈ pixFinset y.h y.w,
      pixVal y p ≠ pixVal y q) :
    minPix y < maxPix y := by
  obtain ⟨p, hp, q, hq, hpq⟩ := hne
  obtain ⟨hh, hw⟩ := pos_of_mem_pixFinset hp
  rcases lt_or_eq_of_le (minPix_le_maxPix y hh hw) with h | h
  · exact h
  · exfalso
    apply hpq
    have h1 : minPix y ≤ pixVal y p := by
      rw [minPix_eq y hh hw]; exact Finset.inf'_le _ hp
    have h2 : pixVal y p ≤ maxPix y := by
      rw [maxPix_eq y hh hw]; exact Finset.le_sup' _ hp
    have h3 : minPix y ≤ pixVal y q := by
      rw [minPix_eq y hh hw]; exact Finset.inf'_le _ hq
    have h4 : pixVal y q ≤ maxPix y := by
      rw [maxPix_eq y hh hw]; exact Finset.le_sup' _ hq
    rw [← h] at h2 h4
    rw [le_antisymm h2 h1, le_antisymm h4 h3]

/-- On a non-constant image the affine branch of `rescale_intensity` is
taken, and every pixel of the result lies in `[0, 1]` unconditionally. -/
theorem rescale_px_mem_of_lt (y : Img) (hlt : minPix y < maxPix y) :
    ∀ i j : ℤ, 0 ≤ (rescale_intensity y).px i j
      ∧ (rescale_intensity y).px i j ≤ 1 := by
  intro i j
  have hc := clipQ_mem (v := y.px i j) (le_of_lt hlt)
  have hpos : 0 < maxPix y - minPix y := sub_pos.mpr hlt
  rw [rescale_px_eq, if_neg (ne_of_lt hlt)]
  constructor
  · exact div_nonneg (sub_nonneg.mpr hc.1) (le_of_lt hpos)
  · rw [div_le_one hpos]
    exact sub_le_sub_right hc.2 _

/-- C6 (amended): the sobel entry is the full-range rescaling of the Sobel
gradient magnitude and the laplace entry the full-range rescaling of the
absolute Laplacian; whenever the map being rescaled takes two distinct values
on the image, the values of the entry lie in `[0, 1]` and attain both 0 and 1 (on
a constant map the rescaling returns the constant unchanged, so the values
need not span `[0, 1]`); the canny_s12 entry is the Canny mask at the single
fixed scale `sigma = 1.2` cast to floats, hence binary. -/
theorem edge_filters_rescale_and_binary (L : Lib) (x : Img) :
    (generar.spatial_filters L x)[5]? =
      some ("sobel", rescale_intensity (sobel L x))
  ∧ (generar.spatial_filters L x)[6]? =
      some ("laplace", rescale_intensity (absImg (laplace x)))
  ∧ (generar.spatial_filters L x)[7]? =
      some ("canny_s12", boolToFloat (canny L x 1.2))
  ∧ (∀ y : Img,
      (∃ p ∈ pixFinset y.h y.w, ∃ q ∈ pixFinset y.h y.w,
        pixVal y p ≠ pixVal y q) →
      (∃ p ∈ pixFinset y.h y.w, (rescale_intensity y).px p.1 p.2 = 0)
      ∧ (∃ p ∈ pixFinset y.h y.w, (rescale_intensity y).px p.1 p.2 = 1)
      ∧ (∀ i j : ℤ, 0 ≤ (rescale_intensity y).px i j
          ∧ (rescale_intensity y).px i j ≤ 1))
  ∧ (∀ i j : ℤ, (boolToFloat (canny L x 1.2)).px i j = 0
      ∨ (boolToFloat (canny L x 1.2)).px i j = 1) := by
  refine ⟨rfl, rfl, rfl, ?_, ?_⟩
  · intro y hne
    have hne2 := hne
    obtain ⟨p, hp, -⟩ := hne2
    obtain ⟨hh, hw⟩ := pos_of_mem_pixFinset hp
    have hspan := rescale_px_span y hh hw hne
    exact ⟨hspan.1, hspan.2,
      rescale_px_mem_of_lt y (minPix_lt_maxPix_of_two y hne)⟩
  · intro i j
    show (if (canny L x 1.2).px i j then (1 : ℚ) else 0) = 0
      ∨ (if (canny L x 1.2).px i j then (1 : ℚ) else 0) = 1
    cases hc : (canny L x 1.2).px i j <;> simp [hc]

def idLib : Lib := ⟨fun _ f => f, fun f => f, fun _ _ _ _ => false⟩

def xSpan : Img := ⟨2, 2, fun i j => if i = 0 ∧ j = 0 then 0 else 1⟩

theorem xSpan_two_values :
    ∃ p ∈ pixFinset xSpan.h xSpan.w, ∃ q ∈ pixFinset xSpan.h xSpan.w,
      pixVal xSpan p ≠ pixVal xSpan q := by
  refine ⟨(0, 0), by decide, (0, 1), by decide, ?_⟩
  show (if (0 : ℤ) = 0 ∧ (0 : ℤ) = 0 then (0 : ℚ) else 1)
      ≠ (if (0 : ℤ) = 0 ∧ (1 : ℤ) = 0 then (0 : ℚ) else 1)
  norm_num

theorem edge_filters_rescale_and_binary_check :
    (∃ p ∈ pixFinset xSpan.h xSpan.w, ∃ q ∈ pixFinset xSpan.h xSpan.w,
      pixVal xSpan p ≠ pixVal xSpan q)
  ∧ ((∃ p ∈ pixFinset xSpan.h xSpan.w, (rescale_intensity xSpan).px p.1 p.2 = 0)
     ∧ (∃ p ∈ pixFinset xSpan.h xSpan.w, (rescale_intensity xSpan).px p.1 p.2 = 1)
     ∧ (∀ i j : ℤ, 0 ≤ (rescale_intensity xSpan).px i j
         ∧ (rescale_intensity xSpan).px i j ≤ 1)) :=
  ⟨xSpan_two_values,
   (edge_filters_rescale_and_binary idLib xSpan).2.2.2.1 xSpan xSpan_two_values⟩

def byteConst : ByteImg := ⟨2, 2, fun _ _ => 77⟩

/-- A normalized image produced by `load_gray` from a constant (all-grey)
2×2 input. -/
def xConst : Img := generar.load_gray byteConst 512

theorem xConst_eq : xConst = ⟨2, 2, fun _ _ => (77 : ℚ) / 255⟩ := by
  show generar.load_gray byteConst 512 = _
  simp only [generar.load_gray, byteConst]
  rw [if_neg (by norm_num)]
  have h0 : (⟨2, 2, fun i j => ((77 : ℕ) : ℚ) / 255⟩ : Img)
      = ⟨2, 2, fun _ _ => (77 : ℚ) / 255⟩ := by
    ext i j
    · rfl
    · rfl
    · norm_num
  rw [h0]
  exact rescale_const 2 2 ((77 : ℚ) / 255) (by norm_num) (by norm_num)

theorem laplace_entry_const :
    rescale_intensity (absImg (laplace xConst)) = ⟨2, 2, fun _ _ => (0 : ℚ)⟩ := by
  have h1 : absImg (laplace xConst) = ⟨2, 2, fun _ _ => (0 : ℚ)⟩ := by
    rw [xConst_eq]
    ext i j
    · rfl
    · rfl
    · show |(77 : ℚ) / 255 + 77 / 255 + 77 / 255 + 77 / 255 - 4 * (77 / 255)| = 0
      norm_num
  rw [h1]
  exact rescale_const 2 2 0 (by norm_num) (by norm_num)

/-- C6 counterexample: on the normalized image obtained from a constant
input, the laplace entry of the filter bank is identically 0, so its values
do not span `[0, 1]` (the value 1 is never attained); the same computation
shows that the span reading of the claim fails as stated. -/
theorem laplace_span_fails_on_constant :
    (generar.spatial_filters idLib xConst)[6]? =
      some ("laplace", rescale_intensity (absImg (laplace xConst)))
  ∧ ¬ ∃ p ∈ pixFinset xConst.h xConst.w,
      (rescale_intensity (absImg (laplace xConst))).px p.1 p.2 = 1 := by
  refine ⟨rfl, ?_⟩
  rw [laplace_entry_const]
  rintro ⟨p, hp, hval⟩
  have h01 : (0 : ℚ) = 1 := hval
  norm_num at h01
